import Mathlib

/-!
Shallow embedding of the data-cleaning pipeline in
`src/backend/src/cleaner.py` (module `cleaner`).

Modelling conventions:
* pandas cell values are the inductive type `Value`: `null` models both
  Python `None` and IEEE `NaN`/`NaT` (everything `pd.isna` accepts),
  `num` models `int`/`float` values as exact rationals, `str` models
  Python strings, `date` models `pd.Timestamp` as an integer tick count.
  Boolean cells and non-finite float literals (`inf`, `nan` as parse
  results) are outside the model; no claim mentions them.
* a pandas `Series` is a `Column`: a dtype tag plus the list of cells.
  A `DataFrame` is the ordered list of named columns plus its row count.
* Python float comparison `numeric_count / len(non_missing) > 0.8` is
  modelled as the exact rational comparison; the two agree for every
  table small enough to exist in memory.
-/

namespace CleanDataPro

/-- Cell values of a table, the model of what a pandas cell can hold. -/
inductive Value where
  | null : Value
  | num (q : ℚ) : Value
  | str (s : String) : Value
  | date (d : ℤ) : Value
deriving DecidableEq

/-- Storage dtype of a column, the model of `Series.dtype`. -/
inductive Dtype where
  | object : Dtype
  | numeric : Dtype
  | datetime : Dtype
deriving DecidableEq

/-- A pandas `Series`: a storage dtype together with its cells. -/
structure Column where
  dtype : Dtype
  cells : List Value
deriving DecidableEq

/-- A pandas `DataFrame`: ordered named columns and the shared row count. -/
structure DataFrame where
  nrows : ℕ
  cols : List (String × Column)
deriving DecidableEq

/-- Placeholder strings treated as missing data (`PLACEHOLDER_VALUES`). -/
def PLACEHOLDER_VALUES : List String :=
  ["unknown", "n/a", "na", "nan", "none", "null", "error", "missing",
   "undefined", "unavailable", "", "-", "--", "?", "n.a.", "#n/a"]

/-- Lowercased, whitespace-stripped character list of a string: the model
of Python `val.lower().strip()`, written on `List Char` so that it is
kernel-computable. -/
def pyLowerStrip (s : String) : List Char :=
  (((s.toList.map Char.toLower).dropWhile Char.isWhitespace).reverse.dropWhile
    Char.isWhitespace).reverse

/-- Model of `_is_missing_value`: true on nulls (`pd.isna`) and on strings
whose lowercased, stripped form is in the placeholder vocabulary. -/
def _is_missing_value : Value → Bool
  | .null => true
  | .str s => PLACEHOLDER_VALUES.any (fun p => p.toList = pyLowerStrip s)
  | _ => false

/-- Numeric value of a list of decimal digit characters. -/
def natOfDigits (cs : List Char) : ℕ :=
  cs.foldl (fun a c => a * 10 + (c.toNat - 48)) 0

/-- Parse an unsigned decimal mantissa (`"12"`, `"12.5"`, `".5"`, `"12."`). -/
def mantissa? (cs : List Char) : Option ℚ :=
  match cs.splitOn '.' with
  | [ip] =>
    if ip ≠ [] ∧ ip.all Char.isDigit then some ((natOfDigits ip : ℚ)) else none
  | [ip, fp] =>
    if (ip ++ fp) ≠ [] ∧ (ip ++ fp).all Char.isDigit then
      some ((natOfDigits ip : ℚ) + (natOfDigits fp : ℚ) / (10 : ℚ) ^ fp.length)
    else none
  | _ => none

/-- Parse an optionally signed run of digits, as an integer. -/
def intDigits? (cs : List Char) : Option ℤ :=
  match cs with
  | '-' :: rest =>
    if rest ≠ [] ∧ rest.all Char.isDigit then some (-(natOfDigits rest : ℤ)) else none
  | '+' :: rest =>
    if rest ≠ [] ∧ rest.all Char.isDigit then some ((natOfDigits rest : ℤ)) else none
  | _ =>
    if cs ≠ [] ∧ cs.all Char.isDigit then some ((natOfDigits cs : ℤ)) else none

/-- Parse an unsigned mantissa with an optional decimal exponent. -/
def mantissaExp? (cs : List Char) : Option ℚ :=
  match cs.splitOn 'e' with
  | [m] => mantissa? m
  | [m, ex] =>
    match mantissa? m, intDigits? ex with
    | some q, some e => some (q * (10 : ℚ) ^ e)
    | _, _ => none
  | _ => none

/-- Model of Python `float(s)` on a string: surrounding whitespace is
ignored, an optional sign, decimal mantissa and optional exponent are
accepted; anything else fails.  Non-finite literals and digit-group
underscores are not modelled. -/
def pyFloat? (s : String) : Option ℚ :=
  match pyLowerStrip s with
  | '-' :: rest => (mantissaExp? rest).map Neg.neg
  | '+' :: rest => mantissaExp? rest
  | cs => mantissaExp? cs

/-- Model of Python `float(val)` over a cell value: numbers convert to
themselves, strings are parsed, `None`/`NaT`/timestamps raise (fail). -/
def pyFloatVal? : Value → Option ℚ
  | .num q => some q
  | .str s => pyFloat? s
  | _ => none

/-- The non-missing cells of a column (`s[~s.apply(_is_missing_value)]`). -/
def nonMissingCells (c : Column) : List Value :=
  c.cells.filter (fun v => !(_is_missing_value v))

/-- Model of `_is_numeric_column`: false when no non-missing cell exists,
otherwise true iff the fraction of non-missing cells that `float()`
accepts exceeds 0.8 (exact rational comparison, see header). -/
def _is_numeric_column (c : Column) : Bool :=
  let nm := nonMissingCells c
  if nm.isEmpty then false
  else 5 * nm.countP (fun v => (pyFloatVal? v).isSome) > 4 * nm.length

/-- Placeholder replacement inside one object column: string cells that
are missing become `NaN` (`working.loc[mask, col] = np.nan`). -/
def replaceCell : Value → Value
  | .str s => if _is_missing_value (.str s) then .null else .str s
  | v => v

/-- Model of `_replace_placeholders`: in every object-dtype column,
placeholder strings become nulls; other columns are untouched. -/
def _replace_placeholders (df : DataFrame) : DataFrame :=
  { df with
    cols := df.cols.map (fun nc =>
      if nc.2.dtype = .object then
        (nc.1, { nc.2 with cells := nc.2.cells.map replaceCell })
      else nc) }

/-- Lexicographic comparison of character lists by code point. -/
def charListLe : List Char → List Char → Bool
  | [], _ => true
  | _ :: _, [] => false
  | a :: as, b :: bs =>
    if a = b then charListLe as bs else decide (a.toNat < b.toNat)

/-- Total order on cell values used to model the sorted output of
`Series.mode`: nulls, then numbers, then strings, then dates, each kind
ordered by its payload. -/
def valueLe : Value → Value → Bool
  | .null, _ => true
  | _, .null => false
  | .num a, .num b => decide (a ≤ b)
  | .num _, _ => true
  | _, .num _ => false
  | .str a, .str b => charListLe a.toList b.toList
  | .str _, _ => true
  | _, .str _ => false
  | .date a, .date b => decide (a ≤ b)

/-- Least element of a list under `valueLe` (none on the empty list). -/
def minByLe : List Value → Option Value
  | [] => none
  | v :: vs => some (vs.foldl (fun w u => if valueLe u w then u else w) v)

/-- Model of `s.mode(dropna=True).iloc[0]` on the non-null values: a value
of maximal multiplicity; among tied values the least under `valueLe`,
matching the sorted order pandas gives `mode`. -/
def modeOf (l : List Value) : Option Value :=
  match (l.map (fun v => l.count v)).max? with
  | none => none
  | some m => minByLe (l.filter (fun v => l.count v = m))

/-- Model of `Series.median()` on the non-null values: midpoint of the
sorted list, averaging the two central values for even lengths. -/
def median (l : List ℚ) : ℚ :=
  let s := List.insertionSort (fun a b : ℚ => a ≤ b) l
  if s.length % 2 = 1 then s.getD (s.length / 2) 0
  else (s.getD (s.length / 2 - 1) 0 + s.getD (s.length / 2) 0) / 2

/-- Model of `Series.fillna(x)`: replace null cells by `x`. -/
def fillna (cells : List Value) (x : Value) : List Value :=
  cells.map (fun v => if v = .null then x else v)

/-- Model of `_fill_column`.  Missing values (nulls and placeholders)
first become nulls (`s[mask] = np.nan`), then the dtype decides the fill:
numeric columns use the median of the non-null values (0 when all are
null), datetime columns use the minimum (left as-is when all null), and
other columns use the mode of the non-null values with the sentinel
string `"Unknown"` when there is none. -/
def _fill_column (c : Column) : Column :=
  let cells := c.cells.map (fun v => if _is_missing_value v then .null else v)
  match c.dtype with
  | .numeric =>
    let nn := cells.filterMap (fun v => match v with | .num q => some q | _ => none)
    if nn.isEmpty then ⟨.numeric, fillna cells (.num 0)⟩
    else ⟨.numeric, fillna cells (.num (median nn))⟩
  | .datetime =>
    let nn := cells.filterMap (fun v => match v with | .date d => some d | _ => none)
    match nn.min? with
    | none => ⟨.datetime, cells⟩
    | some m => ⟨.datetime, fillna cells (.date m)⟩
  | .object =>
    let nonNull := cells.filter (fun v => v ≠ .null)
    if nonNull.isEmpty then ⟨.object, fillna cells (.str ("Unknown"))⟩
    else
      match modeOf nonNull with
      | some m => ⟨.object, fillna cells m⟩
      | none => ⟨.object, fillna cells (.str ("Unknown"))⟩

/-- Row `i` of a table, as the list of its cells in column order. -/
def rowAt (df : DataFrame) (i : ℕ) : List Value :=
  df.cols.map (fun nc => nc.2.cells.getD i .null)

/-- Indices of the rows `DataFrame.drop_duplicates` keeps: the first
occurrence of every distinct row tuple, in original order.  Null cells
compare equal, as pandas treats NaN when detecting duplicates. -/
def keepIdx (df : DataFrame) : List ℕ :=
  (List.range df.nrows).filter
    (fun i => (List.range i).all (fun j => rowAt df j ≠ rowAt df i))

/-- Model of `working.drop_duplicates()`: keep the first occurrence of
each exact row tuple. -/
def dropDuplicates (df : DataFrame) : DataFrame :=
  let ks := keepIdx df
  { nrows := ks.length,
    cols := df.cols.map (fun nc =>
      (nc.1, { nc.2 with cells := ks.map (fun i => nc.2.cells.getD i .null) })) }

/-- Names of the columns `clean_dataframe` flags for numeric coercion
(`numeric_cols_to_fix`), computed on the original table. -/
def numericFlags (df : DataFrame) : List String :=
  (df.cols.filter (fun nc => _is_numeric_column nc.2)).map (fun nc => nc.1)

/-- Model of one cell under `pd.to_numeric(s, errors="coerce")`: numbers
and parseable strings become numbers, everything else becomes null. -/
def toNumericCell : Value → Value
  | .null => .null
  | .num q => .num q
  | .str s => match pyFloat? s with | some q => .num q | none => .null
  | .date _ => .null

/-- Model of the numeric-coercion loop of `clean_dataframe`: every
object-dtype column whose name is flagged is converted cell-wise with
coerce semantics and becomes numeric-dtyped. -/
def coerceNumeric (flags : List String) (df : DataFrame) : DataFrame :=
  { df with
    cols := df.cols.map (fun nc =>
      if nc.2.dtype == Dtype.object && flags.contains nc.1 then
        (nc.1, ⟨.numeric, nc.2.cells.map toNumericCell⟩)
      else nc) }

/-- Model of Python `str(v)` as used to de-duplicate sample values. -/
def pyStr : Value → String
  | .null => ("nan")
  | .num q => toString q
  | .str s => s
  | .date d => toString d

/-- Rounding to two decimal places (`round(x, 2)`), modelled on exact
rationals with round-half-up at the third decimal. -/
def round2 (q : ℚ) : ℚ := ((round (q * 100) : ℤ) : ℚ) / 100

/-- The dtype string `str(s.dtype)` reported for each modelled dtype. -/
def dtypeName : Dtype → String
  | .object => ("object")
  | .numeric => ("float64")
  | .datetime => ("datetime64[ns]")

/-- Model of the sample-collection loop of `analyze_missing_summary`:
walk the non-missing values, append each value whose string form is new,
and stop as soon as `top` samples are collected. -/
def sampleLoop : List Value → List String → List Value → ℕ → List Value
  | [], _, acc, _ => acc
  | v :: vs, seen, acc, top =>
    let step : List Value × List String :=
      if seen.contains (pyStr v) then (acc, seen)
      else (acc ++ [v], pyStr v :: seen)
    if top ≤ step.1.length then step.1 else sampleLoop vs step.2 step.1 top

/-- One per-column record of `analyze_missing_summary`. -/
structure ColProfile where
  column : String
  missing_count : ℕ
  type_issues : ℕ
  total_issues : ℕ
  missing_pct : ℚ
  dtype : String
  unique_count : ℕ
  sample_values : List Value
deriving DecidableEq

/-- The profile `analyze_missing_summary` builds for one column of a
table with `total` rows, before sorting. -/
def mkProfile (total top : ℕ) (name : String) (c : Column) : ColProfile :=
  let missing := c.cells.countP _is_missing_value
  let nm := nonMissingCells c
  let type_issues :=
    if c.dtype == Dtype.object && _is_numeric_column c then
      nm.countP (fun v => !(pyFloatVal? v).isSome)
    else 0
  { column := name,
    missing_count := missing,
    type_issues := type_issues,
    total_issues := missing + type_issues,
    missing_pct := if total ≠ 0 then round2 ((missing : ℚ) / (total : ℚ) * 100) else 0,
    dtype := dtypeName c.dtype,
    unique_count := nm.dedup.length,
    sample_values := sampleLoop nm [] [] top }

/-- The column profiles in the original column order of the table. -/
def profilesInOrder (df : DataFrame) (top : ℕ) : List ColProfile :=
  df.cols.map (fun nc => mkProfile df.nrows top nc.1 nc.2)

/-- Comparison used by `sort_values("total_issues")`. -/
def profLe (a b : ColProfile) : Prop := a.total_issues ≤ b.total_issues

instance : DecidableRel profLe := fun a b => Nat.decLe a.total_issues b.total_issues

instance : IsTotal ColProfile profLe :=
  ⟨fun a b => Nat.le_total a.total_issues b.total_issues⟩

instance : IsTrans ColProfile profLe :=
  ⟨fun _ _ _ hab hbc => Nat.le_trans hab hbc⟩

/-- Model of `sort_values("total_issues", ascending=False)` following the
shape of pandas' `nargsort`: reverse the rows, argsort them ascending,
reverse the resulting order.  The library's default sort kind is
`quicksort`, which pandas documents as not stable; this model uses a
stable sort, which coincides with the library only while numpy's
introsort stays in its small-array insertion-sort regime, so the tie
order of wider tables is not modelled faithfully.  Descending order by
`total_issues` and the multiset of profiles are accurate at every
size. -/
def pandasSortDesc (l : List ColProfile) : List ColProfile :=
  (List.insertionSort profLe l.reverse).reverse

/-- Model of `analyze_missing_summary`: per-column profiles sorted by
descending `total_issues`. -/
def analyze_missing_summary (df : DataFrame) (top : ℕ) : List ColProfile :=
  pandasSortDesc (profilesInOrder df top)

/-- The summary dictionary returned by `clean_dataframe`.  The duplicated
compatibility keys `missing_before`/`missing_after` of the source hold
the same numbers as the `_total` fields and are not repeated here. -/
structure Summary where
  original_rows : ℕ
  cleaned_rows : ℕ
  dropped_duplicates : ℕ
  missing_before_total : ℕ
  missing_after_total : ℕ
  columns : ℕ
  missing_summary_before : List ColProfile
  missing_summary_after : List ColProfile
deriving DecidableEq

/-- First `total_issues` pass of `clean_dataframe`, over the original
table: missing cells plus, for flagged object columns, non-missing cells
that fail a numeric parse.  The source overwrites this value with
`total_issues_working` before using it. -/
def total_issues_original (flags : List String) (df : DataFrame) : ℕ :=
  (df.cols.map (fun nc =>
    nc.2.cells.countP _is_missing_value +
      (if flags.contains nc.1 && nc.2.dtype == Dtype.object then
        (nonMissingCells nc.2).countP (fun v => !(pyFloatVal? v).isSome)
      else 0))).sum

/-- Second `total_issues` pass of `clean_dataframe`, over the table with
placeholders already replaced: null cells plus, for flagged columns,
non-null cells that fail a numeric parse. -/
def total_issues_working (flags : List String) (df : DataFrame) : ℕ :=
  (df.cols.map (fun nc =>
    nc.2.cells.count Value.null +
      (if flags.contains nc.1 then
        (nc.2.cells.filter (fun v => v ≠ .null)).countP
          (fun v => !(pyFloatVal? v).isSome)
      else 0))).sum

/-- Count of cells of the table satisfying `_is_missing_value`
(`working.apply(lambda col: col.apply(_is_missing_value)).sum().sum()`). -/
def countMissingDf (df : DataFrame) : ℕ :=
  (df.cols.map (fun nc => nc.2.cells.countP _is_missing_value)).sum

/-- The per-column fill loop of `clean_dataframe`. -/
def fillAll (df : DataFrame) : DataFrame :=
  { df with cols := df.cols.map (fun nc => (nc.1, _fill_column nc.2)) }

/-- Model of `clean_dataframe` on a table: classify numeric columns,
profile the original table, replace placeholders, optionally drop
duplicate rows, coerce flagged columns, fill every column, and assemble
the summary.  The after-profiles have their issue counts overwritten
with zeros, as in the source. -/
def clean_dataframe (df : DataFrame) (drop_duplicates : Bool) :
    DataFrame × Summary :=
  let flags := numericFlags df
  let msBefore := analyze_missing_summary df 3
  let working := _replace_placeholders df
  let missing_before := total_issues_working flags working
  let dd : DataFrame × ℕ :=
    if drop_duplicates then
      (dropDuplicates working, working.nrows - (dropDuplicates working).nrows)
    else (working, 0)
  let working2 := coerceNumeric flags dd.1
  let working3 := fillAll working2
  let missing_after := countMissingDf working3
  let msAfter := (analyze_missing_summary working3 3).map (fun pr =>
    { pr with missing_count := 0, type_issues := 0, total_issues := 0,
              missing_pct := 0 })
  (working3,
   { original_rows := df.nrows,
     cleaned_rows := working3.nrows,
     dropped_duplicates := dd.2,
     missing_before_total := missing_before,
     missing_after_total := missing_after,
     columns := working3.cols.length,
     missing_summary_before := msBefore,
     missing_summary_after := msAfter })

/-- A cell a numeric-dtyped series can hold: a number or a null. -/
def isNumShape : Value → Bool
  | .null => true
  | .num _ => true
  | _ => false

/-- A cell a datetime-dtyped series can hold: a date or a null. -/
def isDateShape : Value → Bool
  | .null => true
  | .date _ => true
  | _ => false

/-- Dtype consistency of a column: numeric columns hold numbers or nulls,
datetime columns hold dates or nulls, object columns hold anything. -/
def dtypeOk (c : Column) : Bool :=
  match c.dtype with
  | .object => true
  | .numeric => c.cells.all isNumShape
  | .datetime => c.cells.all isDateShape

/-- Well-formed table: every column has exactly `nrows` cells and its
cells agree with its storage dtype. -/
def DataFrame.WfB (df : DataFrame) : Bool :=
  df.cols.all (fun nc => nc.2.cells.length == df.nrows && dtypeOk nc.2)

/-- Every column of the table has at least one non-missing cell. -/
def hasNonMissingB (df : DataFrame) : Bool :=
  df.cols.all (fun nc => nc.2.cells.any (fun v => !(_is_missing_value v)))

/-- The cells of the named column (first match), `[]` if absent. -/
def colCells (df : DataFrame) (name : String) : List Value :=
  ((df.cols.find? (fun nc => nc.1 == name)).map (fun nc => nc.2.cells)).getD []

/-- A Python argument passed where a DataFrame is expected: either an
actual table or a value of any other runtime type. -/
inductive PyArg where
  | table (df : DataFrame) : PyArg
  | notTable : PyArg
deriving DecidableEq

/-- Model of `clean_dataframe` including its `isinstance` guard: a
non-table argument raises `TypeError` immediately, before any
transformation or summary work; a table is processed totally. -/
def clean_dataframe_checked (x : PyArg) (drop_duplicates : Bool) :
    Except String (DataFrame × Summary) :=
  match x with
  | .notTable => .error ("df must be a pandas DataFrame")
  | .table df => .ok (clean_dataframe df drop_duplicates)

/-- A heap of pandas objects, to express which object in-place writes
target.  References are list indices; allocation appends. -/
abbrev Heap := List DataFrame

/-- The default result of reading an invalid reference. -/
def emptyDF : DataFrame := ⟨0, []⟩

/-- Heap-level model of `_replace_placeholders`: `working = df.copy()`
allocates a fresh object, the per-column placeholder writes all target
that copy (folded into one write here), and its reference is returned. -/
def replacePlaceholdersHeap (h : Heap) (r : ℕ) : Heap × ℕ :=
  let df := List.getD h r emptyDF
  let w := List.length h
  let h1 := h ++ [df]
  (List.set h1 w (_replace_placeholders (List.getD h1 w emptyDF)), w)

/-- Heap-level model of `clean_dataframe`: the input is copied before the
placeholder pass, `drop_duplicates` allocates a fresh frame, and the
coercion and fill loops write in place to the working frame only. -/
def clean_dataframe_heap (h : Heap) (r : ℕ) (dd : Bool) :
    Heap × ℕ × Summary :=
  let df := List.getD h r emptyDF
  let h1 := h ++ [df]
  let rp := replacePlaceholdersHeap h1 (List.length h)
  let d2 : Heap × ℕ :=
    if dd then
      (rp.1 ++ [dropDuplicates (List.getD rp.1 rp.2 emptyDF)], List.length rp.1)
    else rp
  let h4 := List.set d2.1 d2.2
    (coerceNumeric (numericFlags df) (List.getD d2.1 d2.2 emptyDF))
  let h5 := List.set h4 d2.2 (fillAll (List.getD h4 d2.2 emptyDF))
  (h5, d2.2, (clean_dataframe df dd).2)

/-- The worked scenario table of the specification,
`{"a": [1, 2, None, 2, 1], "b": ["x", None, "y", "x", "x"]}`. -/
def dfScenario : DataFrame :=
  ⟨5, [("a", ⟨.numeric, [.num 1, .num 2, .null, .num 2, .num 1]⟩),
       ("b", ⟨.object, [.str ("x"), .null, .str ("y"), .str ("x"), .str ("x")]⟩)]⟩

/-- A one-column table whose only value is the placeholder string
`"unknown"`. -/
def dfAllPlaceholder : DataFrame :=
  ⟨1, [("c", ⟨.object, [.str ("unknown")]⟩)]⟩

/-- An object column whose non-missing cells are numeric in exactly 4 of
5 cases: the 80% boundary of the numeric-column classifier. -/
def colEighty : Column :=
  ⟨.object, [.num 1, .num 1, .num 1, .num 1, .str ("x")]⟩

/-- An object column with a single null cell: no non-missing values. -/
def colOnlyNull : Column := ⟨.object, [.null]⟩

/-- A text column whose non-null values are all placeholders. -/
def colAllPlaceholders : Column :=
  ⟨.object, [.str ("n/a"), .null, .str ("ERROR")]⟩

/-- Invariant carried through the cleaning stages: the column's cells
agree with its dtype, and the column is either numeric-dtyped or still
holds at least one non-missing cell. -/
def ColInv (c : Column) : Prop :=
  dtypeOk c = true ∧
    (c.dtype = .numeric ∨ ∃ v ∈ c.cells, _is_missing_value v = false)

theorem replaceCell_of_not_missing (v : Value)
    (h : _is_missing_value v = false) : replaceCell v = v := by
  cases v with
  | null => simp [_is_missing_value] at h
  | str s => simp [replaceCell, h]
  | num q => rfl
  | date d => rfl

theorem mem_fillna (l : List Value) (x v : Value) (hv : v ∈ fillna l x) :
    v = x ∨ (v ∈ l ∧ v ≠ .null) := by
  rcases List.mem_map.mp hv with ⟨w, hw, rfl⟩
  by_cases h : w = Value.null
  · left; simp [h]
  · right; simpa [h] using hw

theorem mask_mem_not_missing (cs : List Value) (w : Value)
    (hw : w ∈ cs.map (fun v => if _is_missing_value v then .null else v))
    (hnn : w ≠ .null) : _is_missing_value w = false := by
  rcases List.mem_map.mp hw with ⟨u, _, rfl⟩
  by_cases h : _is_missing_value u = true
  · simp [h] at hnn
  · simp [eq_false_of_ne_true h]

theorem mem_fillna_mask_not_missing (cs : List Value) (x : Value)
    (hx : _is_missing_value x = false) (v : Value)
    (hv : v ∈ fillna (cs.map (fun u => if _is_missing_value u then .null else u)) x) :
    _is_missing_value v = false := by
  rcases mem_fillna _ _ _ hv with rfl | ⟨hmem, hnn⟩
  · exact hx
  · exact mask_mem_not_missing cs v hmem hnn

theorem foldl_pick_mem (vs : List Value) (a : Value) :
    vs.foldl (fun w u => if valueLe u w then u else w) a = a ∨
      vs.foldl (fun w u => if valueLe u w then u else w) a ∈ vs := by
  induction vs generalizing a with
  | nil => exact Or.inl rfl
  | cons x xs ih =>
    simp only [List.foldl_cons]
    rcases ih (if valueLe x a then x else a) with h | h
    · rw [h]
      by_cases hx : valueLe x a
      · right; simp [hx]
      · left; simp [hx]
    · right; exact List.mem_cons_of_mem _ h

theorem minByLe_mem (l : List Value) (m : Value) (h : minByLe l = some m) :
    m ∈ l := by
  cases l with
  | nil => simp [minByLe] at h
  | cons v vs =>
    simp only [minByLe, Option.some.injEq] at h
    rcases foldl_pick_mem vs v with h' | h'
    · rw [← h, h']; exact List.mem_cons_self v vs
    · rw [← h]; exact List.mem_cons_of_mem _ h'

theorem modeOf_of_ne_nil (l : List Value) (hl : l ≠ []) :
    ∃ m, modeOf l = some m ∧ m ∈ l := by
  obtain ⟨v, hv⟩ := List.exists_mem_of_ne_nil l hl
  have hmap : (l.map (fun u => l.count u)) ≠ [] := by
    simp [hl]
  obtain ⟨mx, hmx⟩ : ∃ mx, (l.map (fun u => l.count u)).max? = some mx := by
    cases h : (l.map (fun u => l.count u)).max? with
    | none => exact absurd (List.max?_eq_none_iff.mp h) hmap
    | some mx => exact ⟨mx, rfl⟩
  have hmem : mx ∈ l.map (fun u => l.count u) :=
    List.max?_mem (fun a b => max_choice a b) hmx
  rcases List.mem_map.mp hmem with ⟨w, hwmem, hwc⟩
  have hwf : w ∈ l.filter (fun u => decide (l.count u = mx)) := by
    simp [List.mem_filter, hwmem, hwc]
  have hne : l.filter (fun u => decide (l.count u = mx)) ≠ [] :=
    List.ne_nil_of_mem hwf
  obtain ⟨m, hm⟩ : ∃ m,
      minByLe (l.filter (fun u => decide (l.count u = mx))) = some m := by
    cases hfil : l.filter (fun u => decide (l.count u = mx)) with
    | nil => exact absurd hfil hne
    | cons a as => exact ⟨_, rfl⟩
  refine ⟨m, ?_, ?_⟩
  · simp only [modeOf, hmx]
    exact hm
  · exact List.mem_filter.mp (minByLe_mem _ _ hm) |>.1

theorem fill_all_not_missing (c : Column) (hd : dtypeOk c = true)
    (hp : c.dtype = .numeric ∨ ∃ v ∈ c.cells, _is_missing_value v = false) :
    ∀ v ∈ (_fill_column c).cells, _is_missing_value v = false := by
  obtain ⟨dt, cs⟩ := c
  cases dt with
  | numeric =>
    intro v hv
    simp only [_fill_column] at hv
    split at hv
    · refine mem_fillna_mask_not_missing cs _ ?_ v hv
      rfl
    · refine mem_fillna_mask_not_missing cs _ ?_ v hv
      rfl
  | datetime =>
    intro v hv
    rcases hp with hnum | ⟨v0, hv0, hnm0⟩
    · exact absurd hnum (by simp)
    simp only [_fill_column] at hv
    split at hv
    next heq =>
      exfalso
      have hall : ∀ x ∈ cs, isDateShape x = true := by
        simpa [dtypeOk, List.all_eq_true] using hd
      cases v0 with
      | null => simp [_is_missing_value] at hnm0
      | num q =>
        have := hall _ hv0
        simp [isDateShape] at this
      | str s =>
        have := hall _ hv0
        simp [isDateShape] at this
      | date d =>
        have hmem : d ∈ (cs.map (fun u =>
            if _is_missing_value u then Value.null else u)).filterMap
              (fun v => match v with | Value.date d => some d | _ => none) := by
          refine List.mem_filterMap.mpr ⟨Value.date d, ?_, rfl⟩
          exact List.mem_map.mpr ⟨Value.date d, hv0, by simp [_is_missing_value]⟩
        rw [List.min?_eq_none_iff.mp heq] at hmem
        simp at hmem
    next m heq =>
      refine mem_fillna_mask_not_missing cs _ ?_ v hv
      rfl
  | object =>
    intro v hv
    rcases hp with hnum | ⟨v0, hv0, hnm0⟩
    · exact absurd hnum (by simp)
    have hv0null : v0 ≠ Value.null := by
      intro h; rw [h] at hnm0; simp [_is_missing_value] at hnm0
    have hv0mem : v0 ∈ cs.map (fun u =>
        if _is_missing_value u then Value.null else u) :=
      List.mem_map.mpr ⟨v0, hv0, by simp [hnm0]⟩
    have hfil : v0 ∈ (cs.map (fun u =>
        if _is_missing_value u then Value.null else u)).filter
          (fun u => u ≠ Value.null) :=
      List.mem_filter.mpr ⟨hv0mem, by simp [hv0null]⟩
    have hne := List.ne_nil_of_mem hfil
    simp only [_fill_column] at hv
    split at hv
    next hempty => exact absurd (List.isEmpty_iff.mp hempty) hne
    next hempty =>
      split at hv
      next m heq =>
        obtain ⟨m', hm'eq, hm'mem⟩ := modeOf_of_ne_nil _ hne
        have hmm : m' = m := by
          rw [heq] at hm'eq
          exact (Option.some.inj hm'eq).symm
        have hmok : _is_missing_value m = false := by
          rcases List.mem_filter.mp (hmm ▸ hm'mem) with ⟨hmemm, hnn⟩
          exact mask_mem_not_missing cs m hmemm (by simpa using hnn)
        exact mem_fillna_mask_not_missing cs m hmok v hv
      next heq =>
        obtain ⟨m', hm'eq, _⟩ := modeOf_of_ne_nil _ hne
        rw [heq] at hm'eq
        exact absurd hm'eq (by simp)

theorem replace_colInv (df : DataFrame) (h : ∀ nc ∈ df.cols, ColInv nc.2) :
    ∀ nc ∈ (_replace_placeholders df).cols, ColInv nc.2 := by
  intro nc hnc
  simp only [_replace_placeholders, List.mem_map] at hnc
  obtain ⟨nc0, h0, heq⟩ := hnc
  have hinv := h nc0 h0
  by_cases hobj : nc0.2.dtype = Dtype.object
  · rw [if_pos hobj] at heq
    subst heq
    constructor
    · simp [dtypeOk, hobj]
    · right
      rcases hinv.2 with hnum | ⟨v, hv, hnm⟩
      · rw [hobj] at hnum; exact absurd hnum (by simp)
      · exact ⟨v, List.mem_map.mpr ⟨v, hv, replaceCell_of_not_missing v hnm⟩, hnm⟩
  · rw [if_neg hobj] at heq
    subst heq
    exact hinv

theorem coerce_colInv (flags : List String) (df : DataFrame)
    (h : ∀ nc ∈ df.cols, ColInv nc.2) :
    ∀ nc ∈ (coerceNumeric flags df).cols, ColInv nc.2 := by
  intro nc hnc
  simp only [coerceNumeric, List.mem_map] at hnc
  obtain ⟨nc0, h0, heq⟩ := hnc
  by_cases hc : (nc0.2.dtype == Dtype.object && flags.contains nc0.1) = true
  · rw [if_pos hc] at heq
    subst heq
    refine ⟨?_, Or.inl rfl⟩
    simp only [dtypeOk, List.all_eq_true]
    intro v hv
    rcases List.mem_map.mp hv with ⟨u, _, rfl⟩
    cases u with
    | null => rfl
    | num q => rfl
    | str s =>
      simp only [toNumericCell]
      cases pyFloat? s <;> rfl
    | date d => rfl
  · rw [if_neg hc] at heq
    subst heq
    exact h nc0 h0

theorem dedup_row_transfer (df : DataFrame) (i : ℕ) (hi : i < df.nrows) :
    ∃ j ∈ keepIdx df, rowAt df j = rowAt df i := by
  have hex : ∃ j, rowAt df j = rowAt df i := ⟨i, rfl⟩
  refine ⟨Nat.find hex, ?_, Nat.find_spec hex⟩
  have hle : Nat.find hex ≤ i := Nat.find_min' hex rfl
  simp only [keepIdx, List.mem_filter, List.mem_range, List.all_eq_true]
  refine ⟨Nat.lt_of_le_of_lt hle hi, ?_⟩
  intro k hk
  have hknot := Nat.find_min hex hk
  simp only [decide_eq_true_eq]
  intro hcontra
  exact hknot (hcontra.trans (Nat.find_spec hex))

theorem dedup_cell_surv (df : DataFrame) (k : ℕ) (hk : k < df.cols.length)
    (i : ℕ) (hi : i < df.nrows) :
    ∃ j ∈ keepIdx df,
      (df.cols.get ⟨k, hk⟩).2.cells.getD j Value.null =
        (df.cols.get ⟨k, hk⟩).2.cells.getD i Value.null := by
  obtain ⟨j, hjk, hjrow⟩ := dedup_row_transfer df i hi
  refine ⟨j, hjk, ?_⟩
  have h2 : ∀ (m : ℕ), (rowAt df m).getD k Value.null
      = (df.cols.get ⟨k, hk⟩).2.cells.getD m Value.null := by
    intro m
    simp [rowAt, List.getD_eq_getElem?_getD, List.getElem?_map,
      List.getElem?_eq_getElem hk, List.get_eq_getElem]
  have h1 : (rowAt df j).getD k Value.null = (rowAt df i).getD k Value.null := by
    rw [hjrow]
  rw [h2 j, h2 i] at h1
  exact h1

theorem dtypeOk_of_subset (c : Column) (cs' : List Value)
    (hd : dtypeOk c = true) (hsub : ∀ v ∈ cs', v ∈ c.cells ∨ v = Value.null) :
    dtypeOk ⟨c.dtype, cs'⟩ = true := by
  obtain ⟨dt, cs⟩ := c
  cases dt with
  | object => rfl
  | numeric =>
    simp only [dtypeOk, List.all_eq_true] at hd ⊢
    intro v hv
    rcases hsub v hv with hmem | rfl
    · exact hd v hmem
    · rfl
  | datetime =>
    simp only [dtypeOk, List.all_eq_true] at hd ⊢
    intro v hv
    rcases hsub v hv with hmem | rfl
    · exact hd v hmem
    · rfl

theorem wf_parts (df : DataFrame) (hwf : df.WfB = true) :
    ∀ nc ∈ df.cols, nc.2.cells.length = df.nrows ∧ dtypeOk nc.2 = true := by
  intro nc hnc
  have h := (List.all_eq_true.mp hwf) nc hnc
  rw [Bool.and_eq_true] at h
  exact ⟨beq_iff_eq.mp h.1, h.2⟩

theorem wf_of_parts (df : DataFrame)
    (h : ∀ nc ∈ df.cols, nc.2.cells.length = df.nrows ∧ dtypeOk nc.2 = true) :
    df.WfB = true := by
  apply List.all_eq_true.mpr
  intro nc hnc
  rcases h nc hnc with ⟨h1, h2⟩
  rw [Bool.and_eq_true]
  exact ⟨by simpa using h1, h2⟩

theorem dedup_colInv (df : DataFrame) (hwf : df.WfB = true)
    (h : ∀ nc ∈ df.cols, ColInv nc.2) :
    ∀ nc ∈ (dropDuplicates df).cols, ColInv nc.2 := by
  intro nc hnc
  simp only [dropDuplicates, List.mem_map] at hnc
  obtain ⟨nc0, h0, heq⟩ := hnc
  rcases wf_parts df hwf nc0 h0 with ⟨hlen, _⟩
  subst heq
  constructor
  · refine dtypeOk_of_subset nc0.2 _ (h nc0 h0).1 ?_
    intro v hv
    rcases List.mem_map.mp hv with ⟨i, _, rfl⟩
    by_cases hi : i < nc0.2.cells.length
    · left
      rw [List.getD_eq_getElem?_getD, List.getElem?_eq_getElem hi]
      exact List.getElem_mem _
    · right
      exact List.getD_eq_default _ _ (Nat.le_of_not_lt hi)
  · rcases (h nc0 h0).2 with hnum | ⟨v, hv, hnm⟩
    · exact Or.inl hnum
    · right
      obtain ⟨i, hilen, hvi⟩ := List.mem_iff_getElem.mp hv
      obtain ⟨k, hk, hcolk⟩ := List.mem_iff_getElem.mp h0
      have hgetk : df.cols.get ⟨k, hk⟩ = nc0 := by
        rw [List.get_eq_getElem]
        exact hcolk
      have hi : i < df.nrows := hlen ▸ hilen
      obtain ⟨j, hjks, hjv⟩ := dedup_cell_surv df k hk i hi
      rw [hgetk] at hjv
      refine ⟨nc0.2.cells.getD j Value.null, List.mem_map.mpr ⟨j, hjks, rfl⟩, ?_⟩
      rw [hjv, List.getD_eq_getElem?_getD, List.getElem?_eq_getElem hilen,
        Option.getD_some, hvi]
      exact hnm

theorem mask_shape (cs : List Value) (v : Value)
    (hv : v ∈ cs.map (fun u => if _is_missing_value u then Value.null else u)) :
    v = Value.null ∨ v ∈ cs := by
  rcases List.mem_map.mp hv with ⟨u, hu, rfl⟩
  by_cases h : _is_missing_value u = true
  · left; simp [h]
  · right; simpa [eq_false_of_ne_true h] using hu

theorem fill_column_dtype (c : Column) : (_fill_column c).dtype = c.dtype := by
  obtain ⟨dt, cs⟩ := c
  cases dt <;> simp only [_fill_column]
  · split
    next => rfl
    next => split <;> rfl
  · split <;> rfl
  · split <;> rfl

theorem fill_column_length (c : Column) :
    (_fill_column c).cells.length = c.cells.length := by
  obtain ⟨dt, cs⟩ := c
  cases dt <;> simp only [_fill_column]
  · split
    next => simp [fillna]
    next => split <;> simp [fillna]
  · split <;> simp [fillna]
  · split <;> simp [fillna]

theorem fill_column_dtypeOk (c : Column) (hd : dtypeOk c = true) :
    dtypeOk (_fill_column c) = true := by
  obtain ⟨dt, cs⟩ := c
  cases dt with
  | object =>
    have hdt := fill_column_dtype ⟨Dtype.object, cs⟩
    unfold dtypeOk
    rw [hdt]
  | numeric =>
    simp only [dtypeOk, List.all_eq_true] at hd
    have hcells : ∀ v ∈ (_fill_column ⟨Dtype.numeric, cs⟩).cells,
        isNumShape v = true := by
      intro v hv
      simp only [_fill_column] at hv
      have hgen : ∀ (x : Value), isNumShape x = true →
          v ∈ fillna (cs.map (fun u =>
            if _is_missing_value u then Value.null else u)) x →
          isNumShape v = true := by
        intro x hx hvf
        rcases mem_fillna _ _ _ hvf with rfl | ⟨hmem, _⟩
        · exact hx
        · rcases mask_shape cs v hmem with rfl | hmemc
          · rfl
          · exact hd v hmemc
      split at hv
      · refine hgen _ ?_ hv
        rfl
      · refine hgen _ ?_ hv
        rfl
    have hdt := fill_column_dtype ⟨Dtype.numeric, cs⟩
    unfold dtypeOk
    rw [hdt]
    simpa [List.all_eq_true] using hcells
  | datetime =>
    simp only [dtypeOk, List.all_eq_true] at hd
    have hcells : ∀ v ∈ (_fill_column ⟨Dtype.datetime, cs⟩).cells,
        isDateShape v = true := by
      intro v hv
      simp only [_fill_column] at hv
      split at hv
      · rcases mask_shape cs v hv with rfl | hmemc
        · rfl
        · exact hd v hmemc
      · rcases mem_fillna _ _ _ hv with rfl | ⟨hmem, _⟩
        · rfl
        · rcases mask_shape cs v hmem with rfl | hmemc
          · rfl
          · exact hd v hmemc
    have hdt := fill_column_dtype ⟨Dtype.datetime, cs⟩
    unfold dtypeOk
    rw [hdt]
    simpa [List.all_eq_true] using hcells

theorem replace_wf (df : DataFrame) (hwf : df.WfB = true) :
    (_replace_placeholders df).WfB = true := by
  apply wf_of_parts
  intro nc hnc
  simp only [_replace_placeholders, List.mem_map] at hnc
  obtain ⟨nc0, h0, heq⟩ := hnc
  rcases wf_parts df hwf nc0 h0 with ⟨hl, hd⟩
  by_cases hobj : nc0.2.dtype = Dtype.object
  · rw [if_pos hobj] at heq
    subst heq
    exact ⟨by simpa using hl, by simp [dtypeOk, hobj]⟩
  · rw [if_neg hobj] at heq
    subst heq
    exact ⟨hl, hd⟩

theorem dedup_wf (df : DataFrame) (hwf : df.WfB = true) :
    (dropDuplicates df).WfB = true := by
  apply wf_of_parts
  intro nc hnc
  simp only [dropDuplicates, List.mem_map] at hnc
  obtain ⟨nc0, h0, heq⟩ := hnc
  rcases wf_parts df hwf nc0 h0 with ⟨_, hd⟩
  subst heq
  constructor
  · simp [dropDuplicates]
  · refine dtypeOk_of_subset nc0.2 _ hd ?_
    intro v hv
    rcases List.mem_map.mp hv with ⟨i, _, rfl⟩
    by_cases hi : i < nc0.2.cells.length
    · left
      rw [List.getD_eq_getElem?_getD, List.getElem?_eq_getElem hi]
      exact List.getElem_mem _
    · right
      exact List.getD_eq_default _ _ (Nat.le_of_not_lt hi)

theorem coerce_wf (flags : List String) (df : DataFrame)
    (hwf : df.WfB = true) : (coerceNumeric flags df).WfB = true := by
  apply wf_of_parts
  intro nc hnc
  simp only [coerceNumeric, List.mem_map] at hnc
  obtain ⟨nc0, h0, heq⟩ := hnc
  rcases wf_parts df hwf nc0 h0 with ⟨hl, hd⟩
  by_cases hc : (nc0.2.dtype == Dtype.object && flags.contains nc0.1) = true
  · rw [if_pos hc] at heq
    subst heq
    refine ⟨by simpa using hl, ?_⟩
    simp only [dtypeOk, List.all_eq_true]
    intro v hv
    rcases List.mem_map.mp hv with ⟨u, _, rfl⟩
    cases u with
    | null => rfl
    | num q => rfl
    | str s =>
      simp only [toNumericCell]
      cases pyFloat? s <;> rfl
    | date d => rfl
  · rw [if_neg hc] at heq
    subst heq
    exact ⟨hl, hd⟩

theorem fillAll_wf (df : DataFrame) (hwf : df.WfB = true) :
    (fillAll df).WfB = true := by
  apply wf_of_parts
  intro nc hnc
  simp only [fillAll, List.mem_map] at hnc
  obtain ⟨nc0, h0, heq⟩ := hnc
  rcases wf_parts df hwf nc0 h0 with ⟨hl, hd⟩
  subst heq
  refine ⟨?_, fill_column_dtypeOk nc0.2 hd⟩
  show (_fill_column nc0.2).cells.length = (fillAll df).nrows
  rw [fill_column_length]
  exact hl

theorem fillAll_not_missing (df : DataFrame)
    (h : ∀ nc ∈ df.cols, ColInv nc.2) :
    ∀ nc ∈ (fillAll df).cols, ∀ v ∈ nc.2.cells,
      _is_missing_value v = false := by
  intro nc hnc
  simp only [fillAll, List.mem_map] at hnc
  obtain ⟨nc0, h0, heq⟩ := hnc
  subst heq
  exact fill_all_not_missing nc0.2 (h nc0 h0).1 (h nc0 h0).2

theorem clean_fst (df : DataFrame) (b : Bool) :
    (clean_dataframe df b).1 =
      fillAll (coerceNumeric (numericFlags df)
        (if b then dropDuplicates (_replace_placeholders df)
         else _replace_placeholders df)) := by
  cases b <;> rfl

theorem clean_not_missing_core (df : DataFrame) (b : Bool)
    (hwf : df.WfB = true) (hnm : hasNonMissingB df = true) :
    ∀ nc ∈ (clean_dataframe df b).1.cols, ∀ v ∈ nc.2.cells,
      _is_missing_value v = false := by
  have h0 : ∀ nc ∈ df.cols, ColInv nc.2 := by
    intro nc hnc
    refine ⟨(wf_parts df hwf nc hnc).2, Or.inr ?_⟩
    have := (List.all_eq_true.mp hnm) nc hnc
    rcases List.any_eq_true.mp this with ⟨v, hv, hvb⟩
    exact ⟨v, hv, by simpa using hvb⟩
  have h1 := replace_colInv df h0
  have hwf1 := replace_wf df hwf
  rw [clean_fst]
  cases b with
  | true =>
    exact fillAll_not_missing _
      (coerce_colInv _ _ (dedup_colInv _ hwf1 h1))
  | false =>
    exact fillAll_not_missing _ (coerce_colInv _ _ h1)

theorem countMissingDf_eq_zero (df : DataFrame)
    (h : ∀ nc ∈ df.cols, ∀ v ∈ nc.2.cells, _is_missing_value v = false) :
    countMissingDf df = 0 := by
  simp only [countMissingDf]
  apply List.sum_eq_zero
  intro x hx
  rcases List.mem_map.mp hx with ⟨nc, hnc, rfl⟩
  apply List.countP_eq_zero.mpr
  intro v hv
  simp [h nc hnc v hv]

theorem clean_missing_after_eq (df : DataFrame) (b : Bool) :
    (clean_dataframe df b).2.missing_after_total =
      countMissingDf (clean_dataframe df b).1 := by
  cases b <;> rfl

theorem clean_wf (df : DataFrame) (b : Bool) (hwf : df.WfB = true) :
    (clean_dataframe df b).1.WfB = true := by
  rw [clean_fst]
  apply fillAll_wf
  apply coerce_wf
  cases b with
  | true => exact dedup_wf _ (replace_wf df hwf)
  | false => exact replace_wf df hwf

theorem keepIdx_pos (df : DataFrame) (h : 1 ≤ df.nrows) :
    1 ≤ (keepIdx df).length := by
  have h0 : 0 ∈ keepIdx df := by
    apply List.mem_filter.mpr
    exact ⟨List.mem_range.mpr h, rfl⟩
  exact List.length_pos.mpr (List.ne_nil_of_mem h0)

theorem clean_nrows (df : DataFrame) (b : Bool) :
    (clean_dataframe df b).1.nrows =
      if b then (keepIdx (_replace_placeholders df)).length else df.nrows := by
  cases b <;> rfl

theorem clean_nrows_pos (df : DataFrame) (b : Bool) (h : 1 ≤ df.nrows) :
    1 ≤ (clean_dataframe df b).1.nrows := by
  rw [clean_nrows]
  cases b with
  | true =>
    simpa using keepIdx_pos (_replace_placeholders df) h
  | false => simpa using h

theorem clean_cols_nil (df : DataFrame) (b : Bool) (h : df.cols = []) :
    (clean_dataframe df b).1.cols = [] := by
  rw [clean_fst]
  cases b <;>
    simp [fillAll, coerceNumeric, dropDuplicates, _replace_placeholders, h]

theorem clean_hasNonMissing (df : DataFrame) (b : Bool)
    (hwf : df.WfB = true) (hnm : hasNonMissingB df = true) :
    hasNonMissingB (clean_dataframe df b).1 = true := by
  by_cases hnil : df.cols = []
  · unfold hasNonMissingB
    rw [clean_cols_nil df b hnil]
    rfl
  · obtain ⟨nc0, hnc0⟩ := List.exists_mem_of_ne_nil _ hnil
    have hany := (List.all_eq_true.mp hnm) nc0 hnc0
    obtain ⟨v0, hv0, _⟩ := List.any_eq_true.mp hany
    have hcne : nc0.2.cells ≠ [] := List.ne_nil_of_mem hv0
    have hlen := (wf_parts df hwf nc0 hnc0).1
    have hpos : 1 ≤ df.nrows := hlen ▸ List.length_pos.mpr hcne
    have houtpos := clean_nrows_pos df b hpos
    have houtwf := clean_wf df b hwf
    have hcells := clean_not_missing_core df b hwf hnm
    apply List.all_eq_true.mpr
    intro nc hnc
    have hl := (wf_parts _ houtwf nc hnc).1
    have hne : nc.2.cells ≠ [] := by
      intro hcon
      rw [hcon] at hl
      simp at hl
      omega
    obtain ⟨v, hv⟩ := List.exists_mem_of_ne_nil _ hne
    exact List.any_eq_true.mpr ⟨v, hv, by simp [hcells nc hnc v hv]⟩

/-- C1: as stated the claim is false: on a text column whose only value
is the placeholder `"unknown"`, cleaning fills the column with the
sentinel `"Unknown"`, which is itself missing, so `missing_after_total`
is 1, not 0, and the filled cell satisfies `_is_missing_value`. -/
theorem imputation_completeness_counterexample :
    (clean_dataframe dfAllPlaceholder true).2.missing_after_total = 1 ∧
    (clean_dataframe dfAllPlaceholder true).2.missing_after_total ≠ 0 ∧
    colCells (clean_dataframe dfAllPlaceholder true).1 ("c") =
      [Value.str ("Unknown")] ∧
    _is_missing_value (Value.str ("Unknown")) = true := by
  decide

/-- C1 (amended): for every well-formed table in which every column has
at least one non-missing cell, after `clean_dataframe` zero cells of the
returned table satisfy `_is_missing_value`, and the summary's
`missing_after_total` is 0.  Columns consisting entirely of missing
cells escape this: all-null datetime columns stay null and all-missing
text columns are filled with the sentinel `"Unknown"`, itself a
placeholder. -/
theorem imputation_completeness_amended (df : DataFrame) (b : Bool)
    (hwf : df.WfB = true) (hnm : hasNonMissingB df = true) :
    (∀ nc ∈ (clean_dataframe df b).1.cols, ∀ v ∈ nc.2.cells,
      _is_missing_value v = false) ∧
    (clean_dataframe df b).2.missing_after_total = 0 := by
  refine ⟨clean_not_missing_core df b hwf hnm, ?_⟩
  rw [clean_missing_after_eq]
  exact countMissingDf_eq_zero _ (clean_not_missing_core df b hwf hnm)

/-- Witness for C1 (amended) at the specification's worked scenario. -/
theorem imputation_completeness_amended_witness :
    dfAllPlaceholder.WfB = true ∧ dfScenario.WfB = true ∧
    hasNonMissingB dfScenario = true ∧
    (clean_dataframe dfScenario true).2.missing_after_total = 0 :=
  ⟨by decide, by decide, by decide,
    (imputation_completeness_amended dfScenario true (by decide) (by decide)).2⟩

/-- C3: as stated the claim is false: cleaning the all-placeholder table
yields the table `["Unknown"]`, and cleaning that again still reports
`missing_after_total = 1`, since `"Unknown"` is detected as a
placeholder, nulled, and refilled with `"Unknown"`. -/
theorem idempotence_counterexample :
    (clean_dataframe (clean_dataframe dfAllPlaceholder true).1
      true).2.missing_after_total = 1 ∧
    (clean_dataframe (clean_dataframe dfAllPlaceholder true).1
      true).2.missing_after_total ≠ 0 := by
  decide

/-- C3 (amended): for every well-formed table in which every column has
at least one non-missing cell, cleaning the cleaned table detects no
further issues: the second run's `missing_after_total` is 0 (with either
setting of duplicate removal on either run). -/
theorem idempotence_amended (df : DataFrame) (b b2 : Bool)
    (hwf : df.WfB = true) (hnm : hasNonMissingB df = true) :
    (clean_dataframe (clean_dataframe df b).1 b2).2.missing_after_total
      = 0 := by
  have hwf1 := clean_wf df b hwf
  have hnm1 := clean_hasNonMissing df b hwf hnm
  rw [clean_missing_after_eq]
  exact countMissingDf_eq_zero _ (clean_not_missing_core _ b2 hwf1 hnm1)

/-- Witness for C3 (amended) at the specification's worked scenario. -/
theorem idempotence_amended_witness :
    dfScenario.WfB = true ∧ hasNonMissingB dfScenario = true ∧
    (clean_dataframe (clean_dataframe dfScenario true).1
      true).2.missing_after_total = 0 :=
  ⟨by decide, by decide,
    idempotence_amended dfScenario true true (by decide) (by decide)⟩

/-- C2: as stated the claim is false: `clean_dataframe` drops the
duplicate row BEFORE filling, so the null of column `"a"` is filled with
the median of the post-deduplication values `{1, 2, 2}`, which is 2, not
with the median 1.5 of `{1, 2, 2, 1}`. -/
theorem scenario_counterexample :
    (colCells (clean_dataframe dfScenario true).1 ("a")).getD 2 Value.null
      = Value.num 2 ∧
    (colCells (clean_dataframe dfScenario true).1 ("a")).getD 2 Value.null
      ≠ Value.num (3 / 2) := by
  constructor
  · decide
  · intro hcon
    have h1 : (colCells (clean_dataframe dfScenario true).1 ("a")).getD 2
        Value.null = Value.num 2 := by decide
    rw [h1] at hcon
    have h2 : (2 : ℚ) = 3 / 2 := Value.num.inj hcon
    norm_num at h2

/-- C2 (amended): on the scenario table with duplicate removal enabled,
row 4 is dropped as an exact duplicate of row 0 (`dropped_duplicates=1`,
`cleaned_rows=4`), the null of column `"a"` is filled with the median 2
of the post-deduplication values `{1, 2, 2}`, and the null of column
`"b"` is filled with the mode `"x"`. -/
theorem scenario_amended :
    (clean_dataframe dfScenario true).2.dropped_duplicates = 1 ∧
    (clean_dataframe dfScenario true).2.cleaned_rows = 4 ∧
    colCells (clean_dataframe dfScenario true).1 ("a") =
      [Value.num 1, Value.num 2, Value.num 2, Value.num 2] ∧
    colCells (clean_dataframe dfScenario true).1 ("b") =
      [Value.str ("x"), Value.str ("x"), Value.str ("y"), Value.str ("x")] := by
  decide

/-- C4: a cell is missing exactly when it is null or is a string whose
lowercased, stripped form is one of the 16 placeholder strings; in
particular `"Unknown"`, `" UNKNOWN "` and `"unknown"` are all missing. -/
theorem missing_detection_spec :
    (∀ v : Value, _is_missing_value v = true ↔
      (v = Value.null ∨ ∃ s : String, v = Value.str s ∧
        ∃ p ∈ PLACEHOLDER_VALUES, p.toList = pyLowerStrip s)) ∧
    _is_missing_value (Value.str ("Unknown")) = true ∧
    _is_missing_value (Value.str (" UNKNOWN ")) = true ∧
    _is_missing_value (Value.str ("unknown")) = true := by
  refine ⟨?_, by decide, by decide, by decide⟩
  intro v
  cases v with
  | null => simp [_is_missing_value]
  | num q => simp [_is_missing_value]
  | date d => simp [_is_missing_value]
  | str s => simp [_is_missing_value, List.any_eq_true]

/-- C5: the numeric-column classifier returns false on columns with no
non-missing cells, and otherwise is true exactly when the fraction of
non-missing cells accepted by a numeric parse strictly exceeds 0.8; a
column at exactly 80% is classified non-numeric. -/
theorem numeric_threshold_spec :
    (∀ c : Column, nonMissingCells c = [] → _is_numeric_column c = false) ∧
    (∀ c : Column, nonMissingCells c ≠ [] →
      (_is_numeric_column c = true ↔
        (4 : ℚ) / 5 <
          ((nonMissingCells c).countP (fun v => (pyFloatVal? v).isSome) : ℚ) /
            ((nonMissingCells c).length : ℚ))) ∧
    _is_numeric_column colEighty = false := by
  refine ⟨?_, ?_, by decide⟩
  · intro c hc
    simp [_is_numeric_column, hc]
  · intro c hc
    have hlen : 0 < (nonMissingCells c).length := List.length_pos.mpr hc
    have hempty : (nonMissingCells c).isEmpty = false := by
      simpa [List.isEmpty_iff] using hc
    simp only [_is_numeric_column, hempty, Bool.false_eq_true, if_false,
      decide_eq_true_eq]
    rw [div_lt_div_iff₀ (by norm_num) (by exact_mod_cast hlen)]
    constructor
    · intro h
      rw [gt_iff_lt] at h
      have h2 : 4 * (nonMissingCells c).length <
          (nonMissingCells c).countP (fun v => (pyFloatVal? v).isSome) * 5 := by
        omega
      exact_mod_cast h2
    · intro h
      have h2 : 4 * (nonMissingCells c).length <
          (nonMissingCells c).countP (fun v => (pyFloatVal? v).isSome) * 5 := by
        exact_mod_cast h
      omega

/-- C6: the summary's row counts satisfy the invariant: cleaned rows
never exceed original rows; with duplicate removal enabled the
difference equals `dropped_duplicates`; with it disabled the counts are
equal and `dropped_duplicates` is 0. -/
theorem row_count_invariant (df : DataFrame) :
    (clean_dataframe df true).2.cleaned_rows ≤
      (clean_dataframe df true).2.original_rows ∧
    (clean_dataframe df true).2.original_rows -
        (clean_dataframe df true).2.cleaned_rows =
      (clean_dataframe df true).2.dropped_duplicates ∧
    (clean_dataframe df false).2.cleaned_rows =
      (clean_dataframe df false).2.original_rows ∧
    (clean_dataframe df false).2.dropped_duplicates = 0 := by
  refine ⟨?_, rfl, rfl, rfl⟩
  show (keepIdx (_replace_placeholders df)).length ≤ df.nrows
  calc (keepIdx (_replace_placeholders df)).length
      ≤ (List.range df.nrows).length := List.length_filter_le _ _
    _ = df.nrows := List.length_range _

/-- C7: the sentinel `"Unknown"` used by `_fill_column` is itself
classified missing, and on a text column whose cells are all missing
(nulls or placeholders) every cell of `_fill_column`'s output is
missing. -/
theorem unknown_sentinel_missing :
    _is_missing_value (Value.str ("Unknown")) = true ∧
    ∀ c : Column, c.dtype = Dtype.object →
      c.cells.all _is_missing_value = true →
      ((_fill_column c).cells.all _is_missing_value) = true := by
  refine ⟨by decide, ?_⟩
  intro c hdt hall
  obtain ⟨dt, cs⟩ := c
  subst hdt
  have hmask : ∀ w ∈ cs.map (fun u =>
      if _is_missing_value u then Value.null else u), w = Value.null := by
    intro w hw
    rcases List.mem_map.mp hw with ⟨u, hu, rfl⟩
    simp [(List.all_eq_true.mp hall) u hu]
  have hfil : (cs.map (fun u =>
      if _is_missing_value u then Value.null else u)).filter
        (fun v => v ≠ Value.null) = [] := by
    rw [List.filter_eq_nil_iff]
    intro a ha
    simp [hmask a ha]
  apply List.all_eq_true.mpr
  intro v hv
  simp only [_fill_column, hfil] at hv
  simp only [List.isEmpty_nil, if_true] at hv
  rcases mem_fillna _ _ _ hv with rfl | ⟨hmem, hnn⟩
  · decide
  · exact absurd (hmask v hmem) hnn

/-- Witness for C7 on a text column of placeholders and nulls. -/
theorem unknown_sentinel_missing_witness :
    colAllPlaceholders.dtype = Dtype.object ∧
    colAllPlaceholders.cells.all _is_missing_value = true ∧
    ((_fill_column colAllPlaceholders).cells.all _is_missing_value) = true :=
  ⟨rfl, by decide,
    unknown_sentinel_missing.2 colAllPlaceholders rfl (by decide)⟩

theorem heap_getD_set_ne (l : Heap) (i j : ℕ) (x : DataFrame) (hne : i ≠ j) :
    (l.set i x).getD j emptyDF = l.getD j emptyDF := by
  simp [List.getD_eq_getElem?_getD, List.getElem?_set_ne hne]

theorem heap_getD_append (l l2 : Heap) (j : ℕ) (hj : j < List.length l) :
    (l ++ l2).getD j emptyDF = l.getD j emptyDF := by
  rw [List.getD_eq_getElem?_getD, List.getD_eq_getElem?_getD,
    List.getElem?_append_left hj]

theorem replace_heap_preserves (h : Heap) (r : ℕ) (hr : r < List.length h) :
    (replacePlaceholdersHeap h r).1.getD r emptyDF = h.getD r emptyDF := by
  simp only [replacePlaceholdersHeap]
  rw [heap_getD_set_ne _ _ _ _ (by omega)]
  exact heap_getD_append h _ r hr

theorem clean_heap_preserves (h : Heap) (r : ℕ) (b : Bool)
    (hr : r < List.length h) :
    (clean_dataframe_heap h r b).1.getD r emptyDF = h.getD r emptyDF := by
  cases b with
  | true =>
    simp only [clean_dataframe_heap, replacePlaceholdersHeap, reduceIte]
    rw [heap_getD_set_ne _ _ _ _ (by
      simp only [List.length_set, List.length_append, List.length_cons,
        List.length_nil]
      omega)]
    rw [heap_getD_set_ne _ _ _ _ (by
      simp only [List.length_set, List.length_append, List.length_cons,
        List.length_nil]
      omega)]
    rw [heap_getD_append _ _ _ (by
      simp only [List.length_set, List.length_append, List.length_cons,
        List.length_nil]
      omega)]
    rw [heap_getD_set_ne _ _ _ _ (by
      simp only [List.length_set, List.length_append, List.length_cons,
        List.length_nil]
      omega)]
    rw [heap_getD_append _ _ _ (by
      simp only [List.length_set, List.length_append, List.length_cons,
        List.length_nil]
      omega)]
    exact heap_getD_append h _ r hr
  | false =>
    simp only [clean_dataframe_heap, replacePlaceholdersHeap,
      Bool.false_eq_true, reduceIte]
    rw [heap_getD_set_ne _ _ _ _ (by
      simp only [List.length_set, List.length_append, List.length_cons,
        List.length_nil]
      omega)]
    rw [heap_getD_set_ne _ _ _ _ (by
      simp only [List.length_set, List.length_append, List.length_cons,
        List.length_nil]
      omega)]
    rw [heap_getD_set_ne _ _ _ _ (by
      simp only [List.length_set, List.length_append, List.length_cons,
        List.length_nil]
      omega)]
    rw [heap_getD_append _ _ _ (by
      simp only [List.length_set, List.length_append, List.length_cons,
        List.length_nil]
      omega)]
    exact heap_getD_append h _ r hr

/-- C8: copy-on-write: at the heap level, `clean_dataframe` and
`_replace_placeholders` leave the frame their caller passed untouched:
after either call, the reference the caller holds still resolves to the
original table, every write having targeted freshly allocated copies. -/
theorem copy_on_write (h : Heap) (r : ℕ) (b : Bool)
    (hr : r < List.length h) :
    (clean_dataframe_heap h r b).1.getD r emptyDF = h.getD r emptyDF ∧
    (replacePlaceholdersHeap h r).1.getD r emptyDF = h.getD r emptyDF :=
  ⟨clean_heap_preserves h r b hr, replace_heap_preserves h r hr⟩

/-- Witness for C8 on a one-frame heap holding the scenario table. -/
theorem copy_on_write_witness :
    0 < List.length [dfScenario] ∧
    (clean_dataframe_heap [dfScenario] 0 true).1.getD 0 emptyDF
      = List.getD [dfScenario] 0 emptyDF ∧
    (replacePlaceholdersHeap [dfScenario] 0).1.getD 0 emptyDF
      = List.getD [dfScenario] 0 emptyDF :=
  ⟨by decide, (copy_on_write [dfScenario] 0 true (by decide)).1,
    (copy_on_write [dfScenario] 0 true (by decide)).2⟩

/-- C9: `clean_dataframe` fails with `TypeError` exactly when its
argument is not a table, before any transformation or summary work is
performed, and on tables it is total: per-cell parse failures degrade to
null under coerce semantics instead of raising. -/
theorem type_error_iff_not_table :
    (∀ b : Bool, clean_dataframe_checked PyArg.notTable b =
      Except.error ("df must be a pandas DataFrame")) ∧
    (∀ (x : PyArg) (b : Bool),
      (∃ e, clean_dataframe_checked x b = Except.error e) ↔
        x = PyArg.notTable) ∧
    (∀ (df : DataFrame) (b : Bool),
      clean_dataframe_checked (PyArg.table df) b =
        Except.ok (clean_dataframe df b)) ∧
    (∀ s : String, pyFloat? s = none →
      toNumericCell (Value.str s) = Value.null) := by
  refine ⟨fun _ => rfl, ?_, fun _ _ => rfl, ?_⟩
  · intro x b
    cases x with
    | table df =>
      constructor
      · rintro ⟨e, he⟩
        exact absurd he (by simp [clean_dataframe_checked])
      · intro hcon
        exact absurd hcon (by simp)
    | notTable => exact ⟨fun _ => rfl, fun _ => ⟨_, rfl⟩⟩
  · intro s hs
    simp [toNumericCell, hs]

/-- Witness for C9: an unparseable cell degrades to null. -/
theorem type_error_iff_not_table_witness :
    pyFloat? ("abc") = none ∧
    toNumericCell (Value.str ("abc")) = Value.null :=
  ⟨by decide, type_error_iff_not_table.2.2.2 ("abc") (by decide)⟩

/-- Witness for C5 at a no-value column and the 80% boundary column. -/
theorem numeric_threshold_spec_witness :
    nonMissingCells colOnlyNull = [] ∧
    _is_numeric_column colOnlyNull = false ∧
    nonMissingCells colEighty ≠ [] ∧
    (_is_numeric_column colEighty = true ↔
      (4 : ℚ) / 5 <
        ((nonMissingCells colEighty).countP
            (fun v => (pyFloatVal? v).isSome) : ℚ) /
          ((nonMissingCells colEighty).length : ℚ)) :=
  ⟨by decide, numeric_threshold_spec.1 colOnlyNull (by decide), by decide,
    numeric_threshold_spec.2.1 colEighty (by decide)⟩

end CleanDataPro
